import Mathlib

/-!
# Verification of the Stalcrafter-X windowed price-statistics core

Shallow embedding of `src/fetch_and_compute.js` (the full variant with the
unit-price resolver and MAD outlier detection, lines 89-437) and of the
paginated history acquisition loop (`fetchAllHistory`, also mirrored by
`src/brow/fetch_item.js`).

JavaScript numbers are modelled as exact rationals `ℚ`; `NaN` (and the
non-finite results of `Number(...)` coercions) is modelled as `none` of
`Option ℚ`.  `Math.round` is JavaScript round-half-toward-positive-infinity,
`⌊x + 1/2⌋`.  Timestamps are rationals (epoch milliseconds).
-/

namespace Stalcrafter

/-- JS `Math.round`: rounds half toward positive infinity, `⌊q + 1/2⌋`. -/
def jsRound (q : ℚ) : ℤ := ⌊q + 1/2⌋

/-- The `time` field of a raw record, as the JS value shapes that
`parseTimestampToMs` distinguishes: absent/null, a number, or a string
(carrying its `Date.parse` result and its `Number(...)` coercion, `none`
standing for `NaN`). -/
inductive TimeField where
  | missing : TimeField
  | numT (q : ℚ) : TimeField
  | strT (dateMs : Option ℚ) (numVal : Option ℚ) : TimeField
deriving DecidableEq

/-- The `amount` field of a raw record.  `missing` covers every falsy raw
value (absent, `null`, the number `0`, the empty string): for those,
`p.amount || 1` in the source yields `1`.  `numA q` is a truthy number
(`q ≠ 0` for a genuine JS number, but we do not need that restriction),
`strA v` is a truthy string whose `Number(...)` coercion is `v`
(`none` = `NaN`). -/
inductive AmountField where
  | missing : AmountField
  | numA (q : ℚ) : AmountField
  | strA (v : Option ℚ) : AmountField
deriving DecidableEq

/-- A raw trade record as handed to `computeWindowStats`:
`{ time, price, amount }`.  `price` is the result of `Number(p.price)`
(`none` = `NaN`/non-finite). -/
structure RawTrade where
  time : TimeField
  price : Option ℚ
  amount : AmountField
deriving DecidableEq

/-- `parseTimestampToMs` (src/fetch_and_compute.js:120-128): `null` gives
`NaN`; a number below `1e12` is seconds (scaled by 1000), otherwise
milliseconds; a string is tried with `Date.parse` first, then with
`Number`, with the same seconds/milliseconds scaling. -/
def parseTimestampToMs : TimeField → Option ℚ
  | TimeField.missing => none
  | TimeField.numT q => some (if q < 1000000000000 then q * 1000 else q)
  | TimeField.strT (some ms) _ => some ms
  | TimeField.strT none (some v) =>
      some (if v < 1000000000000 then v * 1000 else v)
  | TimeField.strT none none => none

/-- `Number(p.amount || 1)` (src/fetch_and_compute.js:219): a falsy raw
amount (absent, `null`, `0`, `""`) defaults to `1` before coercion; a
truthy value is coerced with `Number` (`none` = `NaN`). -/
def jsAmount : AmountField → Option ℚ
  | AmountField.missing => some 1
  | AmountField.numA q => if q = 0 then some 1 else some q
  | AmountField.strA v => v

/-- Insert into an ascending list, keeping it ascending. -/
def insertSorted (x : ℚ) : List ℚ → List ℚ
  | [] => [x]
  | y :: ys => if x ≤ y then x :: y :: ys else y :: insertSorted x ys

/-- The ascending sort `[...arr].sort((x, y) => x - y)` performs
(insertion sort, which computes the same ascending arrangement of the
values). -/
def sortAsc : List ℚ → List ℚ
  | [] => []
  | x :: xs => insertSorted x (sortAsc xs)

/-- `median` (src/fetch_and_compute.js:130-135): `null` on an empty array,
else the middle of the ascending sort, averaging the two central values
for an even count. -/
def median : List ℚ → Option ℚ
  | [] => none
  | x :: xs =>
    let a := sortAsc (x :: xs)
    let mid := a.length / 2
    if a.length % 2 = 1 then some (a.getD mid 0)
    else some ((a.getD (mid - 1) 0 + a.getD mid 0) / 2)

/-- `mad` (src/fetch_and_compute.js:137-141): median of the absolute
deviations from `med`; `null` on an empty array. -/
def mad : List ℚ → ℚ → Option ℚ
  | [], _ => none
  | x :: xs, med => median ((x :: xs).map fun y => |y - med|)

/-- Configuration drawn from the environment: the modified-z-score
threshold `OUTLIER_MAD_THRESHOLD` (default 3) and
`MIN_SAMPLES_FOR_OUTLIER_DETECTION` (default 5). -/
structure Config where
  threshold : ℚ
  minSamples : ℕ
deriving DecidableEq

/-- The defaults of src/fetch_and_compute.js:115-116. -/
def defaultConfig : Config := ⟨3, 5⟩

/-- `detectOutliers` (src/fetch_and_compute.js:144-160): below the minimum
sample count, or when the MAD is zero, nothing is flagged; otherwise a
value is flagged when `|0.6745 * (val - med) / madValue| > threshold`.
(The JS passes the possibly-`null` median into arithmetic, where `null`
coerces to `0`; `getD 0` reproduces that coercion.) -/
def detectOutliers (cfg : Config) (values : List ℚ) : List Bool :=
  if values.length < cfg.minSamples then values.map fun _ => false
  else
    let med := (median values).getD 0
    let madValue := (mad values med).getD 0
    if madValue = 0 then values.map fun _ => false
    else values.map fun val =>
      decide (|(6745/10000 : ℚ) * (val - med) / madValue| > cfg.threshold)

/-- A normalized in-window trade (src/fetch_and_compute.js:216-227): the
record `{ ts, price, amount }` after timestamp parsing, coercion and the
validity filter. -/
structure NTrade where
  ts : ℚ
  price : ℚ
  amount : ℚ
deriving DecidableEq

/-- The window cutoff `Date.now() - windowDays * 24*60*60*1000`. -/
def cutoffOf (now windowDays : ℚ) : ℚ := now - windowDays * 86400000

/-- One record of the normalization map+filter
(src/fetch_and_compute.js:216-227): kept exactly when the timestamp
parses, is at or after the cutoff, the price is finite and positive, and
the (defaulted) amount is a number greater than zero. -/
def normKeep (cutoff : ℚ) (p : RawTrade) : Option NTrade :=
  match parseTimestampToMs p.time, p.price, jsAmount p.amount with
  | some ts, some price, some amount =>
      if ts ≥ cutoff ∧ price > 0 ∧ amount > 0 then some ⟨ts, price, amount⟩
      else none
  | _, _, _ => none

/-- The `normalized` list of `computeWindowStats`. -/
def normalizeWindow (now windowDays : ℚ) (trades : List RawTrade) :
    List NTrade :=
  trades.filterMap (normKeep (cutoffOf now windowDays))

/-- Candidate A (src/fetch_and_compute.js:239): the recorded price is
already per-unit. -/
def candidateA (l : List NTrade) : List ℚ := l.map fun p => p.price

/-- Candidate B (src/fetch_and_compute.js:240): the recorded price is a
stack total, unit price is `price / amount`. -/
def candidateB (l : List NTrade) : List ℚ := l.map fun p => p.price / p.amount

/-- The relative MAD of a candidate series
(src/fetch_and_compute.js:247-248):
`(med && med !== 0) ? (mad / Math.abs(med)) : Infinity`, with `none`
standing for `Infinity`.  A `null` median is falsy and coerces to `0`, so
`getD 0` captures both the `null` and the `0` cases of the guard; inside
the finite branch the array is non-empty, so `mad` is non-`null`. -/
def relOf (vals : List ℚ) : Option ℚ :=
  let m := (median vals).getD 0
  if m = 0 then none else some ((mad vals m).getD 0 / |m|)

/-- `relB < relA` on number-or-`Infinity` values (`none` = `Infinity`):
any finite value is below `Infinity`, and `Infinity < Infinity` is
false. -/
def relLt : Option ℚ → Option ℚ → Bool
  | some qb, some qa => decide (qb < qa)
  | some _, none => true
  | none, _ => false

/-- The resolver decision `chooseB` (src/fetch_and_compute.js:251):
`(relB < relA) || (medA > 1e6 && medB < medA)`.  The `null` median of an
empty list coerces to `0` in the JS comparisons, hence `getD 0`. -/
def chooseBOf (l : List NTrade) : Bool :=
  relLt (relOf (candidateB l)) (relOf (candidateA l)) ||
    (decide ((median (candidateA l)).getD 0 > 1000000) &&
      decide ((median (candidateB l)).getD 0 < (median (candidateA l)).getD 0))

/-- The `unitPrices` series actually used
(src/fetch_and_compute.js:252). -/
def unitPricesOf (l : List NTrade) : List ℚ :=
  if chooseBOf l then candidateB l else candidateA l

/-- An outlier ledger record (src/fetch_and_compute.js:265-274).  The JS
record also carries `itemKey` (an opaque string), an ISO rendering of the
timestamp, and the `reason` literal `"MAD_outlier"`; here the timestamp is
kept in milliseconds and `detection` is `true` for `"price/amount"`
(candidate B), `false` for `"price"` (candidate A). -/
structure OutlierRecord where
  windowDays : ℚ
  ts : ℚ
  price : ℚ
  amount : ℚ
  unitPrice : ℤ
  detection : Bool
deriving DecidableEq

/-- A clean (non-flagged) entry kept for aggregation
(src/fetch_and_compute.js:276-279). -/
structure CleanEntry where
  unitPrice : ℚ
  amount : ℚ
deriving DecidableEq

/-- The element-wise routing data: a normalized trade paired with its unit
price and its outlier flag (the `forEach` of
src/fetch_and_compute.js:260-281 walks the three lists in lockstep). -/
def pairedOf (cfg : Config) (l : List NTrade) :
    List (NTrade × ℚ × Bool) :=
  l.zip ((unitPricesOf l).zip (detectOutliers cfg (unitPricesOf l)))

/-- The `outliers` list built by the `forEach`
(src/fetch_and_compute.js:260-275).  The guard
`!Number.isFinite(unitPrice) || p.amount <= 0` skips an entry entirely;
in the rational model every unit price is finite, so only the amount test
remains. -/
def outlierRecsOf (cfg : Config) (windowDays : ℚ) (l : List NTrade) :
    List OutlierRecord :=
  (pairedOf cfg l).filterMap fun x =>
    if x.1.amount ≤ 0 then none
    else if x.2.2 then
      some ⟨windowDays, x.1.ts, x.1.price, x.1.amount, jsRound x.2.1,
        chooseBOf l⟩
    else none

/-- The `cleanData` list built by the same `forEach`
(src/fetch_and_compute.js:260-281). -/
def cleanDataOf (cfg : Config) (l : List NTrade) : List CleanEntry :=
  (pairedOf cfg l).filterMap fun x =>
    if x.1.amount ≤ 0 then none
    else if x.2.2 then none
    else some ⟨x.2.1, x.1.amount⟩

/-- `totalUnits` (src/fetch_and_compute.js:293): `reduce((s,t) => s + t.amount, 0)`. -/
def totalUnitsOf (c : List CleanEntry) : ℚ :=
  c.foldl (fun s t => s + t.amount) 0

/-- `weightedSum` (src/fetch_and_compute.js:294). -/
def weightedSumOf (c : List CleanEntry) : ℚ :=
  c.foldl (fun s t => s + t.unitPrice * t.amount) 0

/-- `avg` (src/fetch_and_compute.js:295):
`totalUnits > 0 ? Math.round(weightedSum / totalUnits) : null`. -/
def avgOf (c : List CleanEntry) : Option ℤ :=
  if totalUnitsOf c > 0 then some (jsRound (weightedSumOf c / totalUnitsOf c))
  else none

/-- `Math.min(...unitVals)` over a non-empty list (the empty case, where
JS would give `Infinity`, is unreachable in the source). -/
def jsMin : List ℚ → ℚ
  | [] => 0
  | x :: xs => xs.foldl min x

/-- `Math.max(...unitVals)` over a non-empty list. -/
def jsMax : List ℚ → ℚ
  | [] => 0
  | x :: xs => xs.foldl max x

/-- The result object of `computeWindowStats`.  Fields that some return
branches omit (JS `undefined`) are `Option`-wrapped with `none` for
"absent"; `relMadA`/`relMadB`, when present, hold a number-or-`Infinity`
(`some none` = present and `Infinity`). -/
structure WindowStats where
  avg : Option ℤ
  count : ℕ
  min : Option ℤ
  max : Option ℤ
  totalUnits : ℚ
  detection : Option Bool
  medianCandidateA : Option ℤ
  medianCandidateB : Option ℤ
  relMadA : Option (Option ℚ)
  relMadB : Option (Option ℚ)
  outliers : List OutlierRecord
  cleanCount : ℕ
  outliersRemoved : Option ℕ
deriving DecidableEq

/-- `computeWindowStats` (src/fetch_and_compute.js:213-315).  `itemKey`
(an opaque string copied into ledger records) is dropped; `Date.now()` is
the explicit `now` argument. -/
def computeWindowStats (cfg : Config) (now : ℚ) (trades : List RawTrade)
    (windowDays : ℚ) : WindowStats :=
  let normalized := normalizeWindow now windowDays trades
  if normalized = [] then
    ⟨none, 0, none, none, 0, none, none, none, none, none, [], 0, none⟩
  else
    let outliers := outlierRecsOf cfg windowDays normalized
    let cleanData := cleanDataOf cfg normalized
    if cleanData = [] then
      ⟨none, normalized.length, none, none, 0, none, none, none, none, none,
        outliers, 0, none⟩
    else
      ⟨avgOf cleanData, normalized.length,
        some (jsRound (jsMin (cleanData.map fun u => u.unitPrice))),
        some (jsRound (jsMax (cleanData.map fun u => u.unitPrice))),
        totalUnitsOf cleanData,
        some (chooseBOf normalized),
        some (jsRound ((median (candidateA normalized)).getD 0)),
        some (jsRound ((median (candidateB normalized)).getD 0)),
        some (relOf (candidateA normalized)),
        some (relOf (candidateB normalized)),
        outliers, cleanData.length, some outliers.length⟩

/-! ## The paginated history acquisition loop -/

/-- The early-stop staleness test of `fetchAllHistory`
(src/fetch_and_compute.js:202-205, likewise src/brow/fetch_item.js:50-52):
the last (oldest) record of the page has a parseable timestamp strictly
before the 7-day cutoff. -/
def pageStale (cutoff7 : ℚ) (prices : List RawTrade) : Bool :=
  match prices.getLast? with
  | none => false
  | some last =>
    match parseTimestampToMs last.time with
    | none => false
    | some ts => decide (ts < cutoff7)

/-- The page loop of `fetchAllHistory`
(src/fetch_and_compute.js:163-210; same loop in
src/brow/fetch_item.js:22-56): starting at `page` with `fuel` requests
remaining of the `MAX_PAGES` cap, returns the indices of the pages
actually requested, in order.  The source is modelled as the sequence of
(already canonicalized) `prices` arrays it would return; a page is
requested, then the loop stops after an empty page or a stale page.  The
inter-page politeness delay has no effect on the result. -/
def fetchLoop (src : ℕ → List RawTrade) (cutoff7 : ℚ) :
    ℕ → ℕ → List ℕ
  | _, 0 => []
  | page, fuel + 1 =>
    let prices := src page
    if prices = [] then [page]
    else if pageStale cutoff7 prices then [page]
    else page :: fetchLoop src cutoff7 (page + 1) fuel

/-- The pages `fetchAllHistory` requests with cap `maxPages`. -/
def fetchedPages (src : ℕ → List RawTrade) (cutoff7 : ℚ)
    (maxPages : ℕ) : List ℕ :=
  fetchLoop src cutoff7 0 maxPages

/-- The accumulated `allPrices` of `fetchAllHistory`: every requested
page's records in request order (an empty final page contributes
nothing). -/
def fetchAllHistory (src : ℕ → List RawTrade) (cutoff7 : ℚ)
    (maxPages : ℕ) : List RawTrade :=
  (fetchedPages src cutoff7 maxPages).foldl (fun acc p => acc ++ src p) []

/-! ## Spec-side definitions (for refinement comparison)

These follow the specification's words, to be compared against the
definitions above, which follow the source. -/

/-- The relative MAD exactly as the spec words it: `mad / |median|`,
treated as infinite (`none`) when the median is zero. -/
def specRelMAD (vals : List ℚ) : Option ℚ :=
  match median vals with
  | none => none
  | some m => if m = 0 then none else (mad vals m).map fun dv => dv / |m|

/-- The resolver decision as the spec words it: choose Candidate B iff
`relativeMAD(B) < relativeMAD(A)`, or `median(A) > 1_000_000` and
`median(B) < median(A)`; Candidate A is `price`, Candidate B is
`price / amount`. -/
def specChooseB (batch : List NTrade) : Bool :=
  relLt (specRelMAD (batch.map fun t => t.price / t.amount))
      (specRelMAD (batch.map fun t => t.price)) ||
    (match median (batch.map fun t => t.price),
        median (batch.map fun t => t.price / t.amount) with
     | some a, some b => decide (a > 1000000) && decide (b < a)
     | _, _ => false)

/-- The unweighted mean, as the spec's `mean` diagnostic field describes
it (the source computes no such quantity). -/
def meanOf (l : List ℚ) : ℚ := l.sum / l.length

/-- The rational value of an optional integer field. -/
def optIntVal : Option ℤ → List ℚ
  | none => []
  | some z => [(z : ℚ)]

/-- The rational value of an optional natural-number field. -/
def optNatVal : Option ℕ → List ℚ
  | none => []
  | some n => [(n : ℚ)]

/-- Every numeric value carried by a `WindowStats` record, used to check
which quantities the result does and does not contain. -/
def numericFieldVals (r : WindowStats) : List ℚ :=
  optIntVal r.avg ++ [(r.count : ℚ)] ++ optIntVal r.min ++
  optIntVal r.max ++ [r.totalUnits] ++ optIntVal r.medianCandidateA ++
  optIntVal r.medianCandidateB ++
  (r.relMadA.getD none).toList ++ (r.relMadB.getD none).toList ++
  [(r.cleanCount : ℚ)] ++ optNatVal r.outliersRemoved ++
  (r.outliers.map fun o => (o.unitPrice : ℚ)) ++
  (r.outliers.map fun o => o.price) ++
  (r.outliers.map fun o => o.amount)

/-! ## Concrete inputs used by witnesses and counterexamples -/

/-- A raw record with a numeric epoch-millisecond timestamp, a numeric
price and a numeric amount. -/
def mkTrade (ts pr am : ℚ) : RawTrade :=
  ⟨TimeField.numT ts, some pr, AmountField.numA am⟩

/-- A fixed "now" (epoch ms, above the seconds/milliseconds pivot). -/
def nowQ : ℚ := 2000000000000

/-- Three fresh trades whose two candidate series are equally dispersed
(the resolver keeps Candidate A), plus four trades two days old whose
stack-total reading clusters tightly (over the 7-day subset the resolver
switches to Candidate B). -/
def tradesResolver : List RawTrade :=
  [mkTrade nowQ 10 10, mkTrade nowQ 20 10, mkTrade nowQ 30 5,
   mkTrade (nowQ - 172800000) 100 50, mkTrade (nowQ - 172800000) 200 100,
   mkTrade (nowQ - 172800000) 400 200, mkTrade (nowQ - 172800000) 800 400]

/-- Five fresh unit-amount trades; the extreme one is flagged as an
outlier, leaving clean unit prices `[10, 10, 13, 14]`. -/
def tradesDiag : List RawTrade :=
  [mkTrade nowQ 10 1, mkTrade nowQ 10 1, mkTrade nowQ 13 1,
   mkTrade nowQ 14 1, mkTrade nowQ 100 1]

/-- A configuration with a very low outlier threshold (the threshold is
environment-configurable in the source). -/
def cfgLow : Config := ⟨3/100, 5⟩

/-- Six fresh unit-amount trades all of which `cfgLow` flags as
outliers. -/
def tradesAllOut : List RawTrade :=
  [mkTrade nowQ 1 1, mkTrade nowQ 2 1, mkTrade nowQ 10 1,
   mkTrade nowQ 11 1, mkTrade nowQ 20 1, mkTrade nowQ 21 1]

/-- A source that serves one fresh trade on pages 0 and 1 and is
exhausted from page 2 on. -/
def srcTwoPages : ℕ → List RawTrade := fun n =>
  if n ≤ 1 then [mkTrade nowQ 10 1] else []

/-! ## Basic lemmas about the embedded definitions -/

theorem median_of_ne_empty {arr : List ℚ} (h : arr ≠ []) :
    ∃ m, median arr = some m := by
  match arr, h with
  | x :: xs, _ =>
    unfold median
    dsimp only
    split <;> exact ⟨_, rfl⟩

theorem mad_of_ne_empty {arr : List ℚ} (med : ℚ) (h : arr ≠ []) :
    ∃ d, mad arr med = some d := by
  match arr, h with
  | x :: xs, _ =>
    unfold mad
    exact median_of_ne_empty (by simp)

theorem length_detectOutliers (cfg : Config) (values : List ℚ) :
    (detectOutliers cfg values).length = values.length := by
  unfold detectOutliers
  split
  · simp
  · dsimp only
    split <;> simp

theorem length_unitPricesOf (l : List NTrade) :
    (unitPricesOf l).length = l.length := by
  unfold unitPricesOf candidateA candidateB
  split <;> simp

theorem length_pairedOf (cfg : Config) (l : List NTrade) :
    (pairedOf cfg l).length = l.length := by
  unfold pairedOf
  simp [List.length_zip, length_detectOutliers, length_unitPricesOf]

theorem mem_normalizeWindow_amount_pos {now d : ℚ} {trades : List RawTrade}
    {t : NTrade} (ht : t ∈ normalizeWindow now d trades) : 0 < t.amount := by
  unfold normalizeWindow at ht
  obtain ⟨p, _, hkeep⟩ := List.mem_filterMap.mp ht
  revert hkeep
  unfold normKeep
  split
  · intro hkeep
    split_ifs at hkeep with hcond
    · cases hkeep
      exact hcond.2.2
  · intro hkeep
    cases hkeep

theorem mem_pairedOf_amount_pos {cfg : Config} {now d : ℚ}
    {trades : List RawTrade} {x : NTrade × ℚ × Bool}
    (hx : x ∈ pairedOf cfg (normalizeWindow now d trades)) :
    0 < x.1.amount := by
  obtain ⟨a, bc⟩ := x
  exact mem_normalizeWindow_amount_pos (List.of_mem_zip hx).1

/-- The three-way branch structure of `computeWindowStats`: empty window. -/
theorem computeWindowStats_empty {cfg : Config} {now d : ℚ}
    {trades : List RawTrade} (hn : normalizeWindow now d trades = []) :
    computeWindowStats cfg now trades d =
      ⟨none, 0, none, none, 0, none, none, none, none, none, [], 0, none⟩ := by
  simp [computeWindowStats, hn]

/-- Branch where trades exist in the window but none survive the outlier
filter. -/
theorem computeWindowStats_allOut {cfg : Config} {now d : ℚ}
    {trades : List RawTrade} (hn : normalizeWindow now d trades ≠ [])
    (hc : cleanDataOf cfg (normalizeWindow now d trades) = []) :
    computeWindowStats cfg now trades d =
      ⟨none, (normalizeWindow now d trades).length, none, none, 0, none,
        none, none, none, none,
        outlierRecsOf cfg d (normalizeWindow now d trades), 0, none⟩ := by
  simp [computeWindowStats, hn, hc]

/-- Main branch: at least one clean trade. -/
theorem computeWindowStats_main {cfg : Config} {now d : ℚ}
    {trades : List RawTrade} (hn : normalizeWindow now d trades ≠ [])
    (hc : cleanDataOf cfg (normalizeWindow now d trades) ≠ []) :
    computeWindowStats cfg now trades d =
      ⟨avgOf (cleanDataOf cfg (normalizeWindow now d trades)),
        (normalizeWindow now d trades).length,
        some (jsRound (jsMin ((cleanDataOf cfg (normalizeWindow now d trades)).map
          fun u => u.unitPrice))),
        some (jsRound (jsMax ((cleanDataOf cfg (normalizeWindow now d trades)).map
          fun u => u.unitPrice))),
        totalUnitsOf (cleanDataOf cfg (normalizeWindow now d trades)),
        some (chooseBOf (normalizeWindow now d trades)),
        some (jsRound ((median (candidateA (normalizeWindow now d trades))).getD 0)),
        some (jsRound ((median (candidateB (normalizeWindow now d trades))).getD 0)),
        some (relOf (candidateA (normalizeWindow now d trades))),
        some (relOf (candidateB (normalizeWindow now d trades))),
        outlierRecsOf cfg d (normalizeWindow now d trades),
        (cleanDataOf cfg (normalizeWindow now d trades)).length,
        some (outlierRecsOf cfg d (normalizeWindow now d trades)).length⟩ := by
  simp [computeWindowStats, hn, hc]

/-- In every branch, the reported `count` is the number of normalized
in-window trades. -/
theorem count_eq_length (cfg : Config) (now : ℚ) (trades : List RawTrade)
    (d : ℚ) :
    (computeWindowStats cfg now trades d).count =
      (normalizeWindow now d trades).length := by
  by_cases hn : normalizeWindow now d trades = []
  · rw [computeWindowStats_empty hn, hn]
    rfl
  · by_cases hc : cleanDataOf cfg (normalizeWindow now d trades) = []
    · rw [computeWindowStats_allOut hn hc]
    · rw [computeWindowStats_main hn hc]

/-- Two `filterMap`s that route every element to exactly one side
partition the list: the lengths add up. -/
theorem length_filterMap_add_of_route {α β γ : Type} (f : α → Option β)
    (g : α → Option γ) :
    ∀ l : List α,
      (∀ x ∈ l, ((f x).isSome ∧ g x = none) ∨ (f x = none ∧ (g x).isSome)) →
      (l.filterMap f).length + (l.filterMap g).length = l.length := by
  intro l
  induction l with
  | nil => intro _; rfl
  | cons a l ih =>
    intro h
    have ha := h a (List.mem_cons_self a l)
    have hrest := fun x hx => h x (List.mem_cons_of_mem a hx)
    have hlen := ih hrest
    rcases ha with ⟨hf, hg⟩ | ⟨hf, hg⟩
    · obtain ⟨y, hy⟩ := Option.isSome_iff_exists.mp hf
      rw [List.filterMap_cons_some hy, List.filterMap_cons_none hg]
      simp only [List.length_cons]
      omega
    · obtain ⟨z, hz⟩ := Option.isSome_iff_exists.mp hg
      rw [List.filterMap_cons_none hf, List.filterMap_cons_some hz]
      simp only [List.length_cons]
      omega

/-- The clean entries and the outlier records partition the normalized
in-window trades. -/
theorem clean_outliers_partition (cfg : Config) (now d : ℚ)
    (trades : List RawTrade) :
    (cleanDataOf cfg (normalizeWindow now d trades)).length +
      (outlierRecsOf cfg d (normalizeWindow now d trades)).length =
      (normalizeWindow now d trades).length := by
  unfold cleanDataOf outlierRecsOf
  rw [length_filterMap_add_of_route _ _ _ ?_, length_pairedOf]
  intro x hx
  have hpos := mem_pairedOf_amount_pos hx
  by_cases hf : x.2.2 <;> simp [not_le.mpr hpos, hf]

/-- Characterization of the records the normalizer keeps. -/
theorem normKeep_eq_some_iff {c : ℚ} {p : RawTrade} {t : NTrade} :
    normKeep c p = some t ↔
      parseTimestampToMs p.time = some t.ts ∧ p.price = some t.price ∧
        jsAmount p.amount = some t.amount ∧ t.ts ≥ c ∧ t.price > 0 ∧
        t.amount > 0 := by
  obtain ⟨tts, tpr, tam⟩ := t
  unfold normKeep
  cases hts : parseTimestampToMs p.time <;> cases hpr : p.price <;>
    cases ham : jsAmount p.amount <;>
    simp only [hts, hpr, ham, Option.some.injEq] <;>
    try simp
  constructor
  · rintro ⟨⟨hc, hp, ha⟩, rfl, rfl, rfl⟩
    exact ⟨rfl, rfl, rfl, hc, hp, ha⟩
  · rintro ⟨rfl, rfl, rfl, h4, h5, h6⟩
    exact ⟨⟨h4, h5, h6⟩, rfl, rfl, rfl⟩

/-- Loosening the cutoff keeps every record the tight cutoff keeps. -/
theorem normKeep_mono {c₁ c₂ : ℚ} (hc : c₂ ≤ c₁) {p : RawTrade}
    {t : NTrade} (h : normKeep c₁ p = some t) : normKeep c₂ p = some t := by
  rw [normKeep_eq_some_iff] at h ⊢
  exact ⟨h.1, h.2.1, h.2.2.1, le_trans hc h.2.2.2.1, h.2.2.2.2⟩

theorem length_filterMap_mono {α : Type} {β : Type} (f g : α → Option β)
    (h : ∀ a b, f a = some b → g a = some b) :
    ∀ l : List α, (l.filterMap f).length ≤ (l.filterMap g).length := by
  intro l
  induction l with
  | nil => simp
  | cons a l ih =>
    cases hf : f a with
    | none =>
      rw [List.filterMap_cons_none hf]
      cases hg : g a with
      | none => rw [List.filterMap_cons_none hg]; exact ih
      | some b =>
        rw [List.filterMap_cons_some hg, List.length_cons]
        exact le_trans ih (Nat.le_succ _)
    | some b =>
      rw [List.filterMap_cons_some hf, List.filterMap_cons_some (h _ _ hf)]
      simpa using ih

/-- Folding `+ f t` from an accumulator is the accumulator plus the sum
of the images. -/
theorem foldl_add_map {α : Type} (f : α → ℚ) :
    ∀ (l : List α) (a : ℚ),
      l.foldl (fun s t => s + f t) a = a + (l.map f).sum := by
  intro l
  induction l with
  | nil => intro a; simp
  | cons x l ih =>
    intro a
    simp only [List.foldl_cons, List.map_cons, List.sum_cons, ih]
    ring

theorem totalUnitsOf_eq_sum (c : List CleanEntry) :
    totalUnitsOf c = (c.map fun t => t.amount).sum := by
  unfold totalUnitsOf
  rw [foldl_add_map]
  ring

theorem weightedSumOf_eq_sum (c : List CleanEntry) :
    weightedSumOf c = (c.map fun t => t.unitPrice * t.amount).sum := by
  unfold weightedSumOf
  rw [foldl_add_map]
  ring

/-- `Math.min` over a spread list bounds every element from below. -/
theorem jsMin_le_of_mem :
    ∀ {l : List ℚ} {v : ℚ}, v ∈ l → jsMin l ≤ v := by
  have key : ∀ (l : List ℚ) (a : ℚ),
      l.foldl min a ≤ a ∧ ∀ v ∈ l, l.foldl min a ≤ v := by
    intro l
    induction l with
    | nil => intro a; exact ⟨le_refl a, by simp⟩
    | cons x l ih =>
      intro a
      obtain ⟨h1, h2⟩ := ih (min a x)
      refine ⟨le_trans h1 (min_le_left a x), ?_⟩
      intro v hv
      rcases List.mem_cons.mp hv with rfl | hv
      · exact le_trans h1 (min_le_right a v)
      · exact h2 v hv
  intro l v hv
  match l, hv with
  | x :: xs, hv =>
    rcases List.mem_cons.mp hv with rfl | hv
    · exact (key xs v).1
    · exact (key xs x).2 v hv

/-- `Math.max` over a spread list bounds every element from above. -/
theorem le_jsMax_of_mem :
    ∀ {l : List ℚ} {v : ℚ}, v ∈ l → v ≤ jsMax l := by
  have key : ∀ (l : List ℚ) (a : ℚ),
      a ≤ l.foldl max a ∧ ∀ v ∈ l, v ≤ l.foldl max a := by
    intro l
    induction l with
    | nil => intro a; exact ⟨le_refl a, by simp⟩
    | cons x l ih =>
      intro a
      obtain ⟨h1, h2⟩ := ih (max a x)
      refine ⟨le_trans (le_max_left a x) h1, ?_⟩
      intro v hv
      rcases List.mem_cons.mp hv with rfl | hv
      · exact le_trans (le_max_right a v) h1
      · exact h2 v hv
  intro l v hv
  match l, hv with
  | x :: xs, hv =>
    rcases List.mem_cons.mp hv with rfl | hv
    · exact (key xs v).1
    · exact (key xs x).2 v hv

/-- JS `Math.round` is monotone. -/
theorem jsRound_mono {a b : ℚ} (h : a ≤ b) : jsRound a ≤ jsRound b :=
  Int.floor_le_floor (by linarith)

/-- Every clean entry has a positive amount (the routing guard discards
non-positive amounts). -/
theorem mem_cleanDataOf_amount_pos {cfg : Config} {l : List NTrade}
    {e : CleanEntry} (he : e ∈ cleanDataOf cfg l) : 0 < e.amount := by
  unfold cleanDataOf at he
  obtain ⟨x, _, hx⟩ := List.mem_filterMap.mp he
  split_ifs at hx with h1 h2
  cases hx
  exact lt_of_not_le h1

/-! ## Claim theorems -/

/-- C6: for every raw trade set, when the 1-day and 7-day window
statistics are both computed from that same set, the 7-day window's
`sampleCount` (`count`) is at least the 1-day window's. -/
theorem c6_window7_sampleCount_ge (cfg : Config) (now : ℚ)
    (trades : List RawTrade) :
    (computeWindowStats cfg now trades 1).count ≤
      (computeWindowStats cfg now trades 7).count := by
  rw [count_eq_length, count_eq_length]
  unfold normalizeWindow
  apply length_filterMap_mono
  intro p t h
  refine normKeep_mono ?_ h
  unfold cutoffOf
  linarith

/-- C9: for every input trade set and every window, `cleanCount` plus the
number of outlier records equals `sampleCount`: every in-window
normalized trade is counted exactly once, as clean or as an outlier. -/
theorem c9_clean_plus_outliers_eq_count (cfg : Config) (now : ℚ)
    (trades : List RawTrade) (d : ℚ) :
    (computeWindowStats cfg now trades d).cleanCount +
      (computeWindowStats cfg now trades d).outliers.length =
      (computeWindowStats cfg now trades d).count := by
  by_cases hn : normalizeWindow now d trades = []
  · rw [computeWindowStats_empty hn]
    rfl
  · by_cases hc : cleanDataOf cfg (normalizeWindow now d trades) = []
    · rw [computeWindowStats_allOut hn hc]
      have h := clean_outliers_partition cfg now d trades
      rw [hc] at h
      simpa using h
    · rw [computeWindowStats_main hn hc]
      exact clean_outliers_partition cfg now d trades

/-- C7: aggregating a permutation of a set of clean trades yields the
same weighted average (and the same weighted sum and total units). -/
theorem c7_weighted_avg_perm_invariant (l l' : List CleanEntry)
    (h : l.Perm l') :
    avgOf l = avgOf l' ∧ weightedSumOf l = weightedSumOf l' ∧
      totalUnitsOf l = totalUnitsOf l' := by
  have ht : totalUnitsOf l = totalUnitsOf l' := by
    rw [totalUnitsOf_eq_sum, totalUnitsOf_eq_sum]
    exact (h.map _).sum_eq
  have hw : weightedSumOf l = weightedSumOf l' := by
    rw [weightedSumOf_eq_sum, weightedSumOf_eq_sum]
    exact (h.map _).sum_eq
  refine ⟨?_, hw, ht⟩
  unfold avgOf
  rw [ht, hw]

/-- Witness for C7 at a concrete two-element permutation. -/
theorem c7_witness :
    ([⟨10, 2⟩, ⟨20, 1⟩] : List CleanEntry).Perm [⟨20, 1⟩, ⟨10, 2⟩] ∧
      avgOf [⟨10, 2⟩, ⟨20, 1⟩] = avgOf [⟨20, 1⟩, ⟨10, 2⟩] :=
  ⟨by decide, (c7_weighted_avg_perm_invariant _ _ (by decide)).1⟩

/-- C5: in a window where trades exist but every trade is flagged
(`cleanCount = 0`), the aggregator reports absent `avg`, `min` and `max`,
a `count` equal to the normalized in-window trade count, and one outlier
record per in-window trade. -/
theorem c5_all_outliers (cfg : Config) (now : ℚ) (trades : List RawTrade)
    (d : ℚ) (hn : normalizeWindow now d trades ≠ [])
    (hc : (computeWindowStats cfg now trades d).cleanCount = 0) :
    (computeWindowStats cfg now trades d).avg = none ∧
      (computeWindowStats cfg now trades d).min = none ∧
      (computeWindowStats cfg now trades d).max = none ∧
      (computeWindowStats cfg now trades d).count =
        (normalizeWindow now d trades).length ∧
      (computeWindowStats cfg now trades d).outliers.length =
        (computeWindowStats cfg now trades d).count := by
  by_cases hcd : cleanDataOf cfg (normalizeWindow now d trades) = []
  · rw [computeWindowStats_allOut hn hcd]
    refine ⟨rfl, rfl, rfl, rfl, ?_⟩
    have h := clean_outliers_partition cfg now d trades
    rw [hcd] at h
    simpa using h
  · exfalso
    rw [computeWindowStats_main hn hcd] at hc
    exact hcd (List.length_eq_zero.mp hc)

/-- Witness for C5: with a low (environment-configurable) threshold, all
six in-window trades are flagged and the conclusion holds. -/
theorem c5_witness :
    normalizeWindow nowQ 1 tradesAllOut ≠ [] ∧
      (computeWindowStats cfgLow nowQ tradesAllOut 1).cleanCount = 0 ∧
      (computeWindowStats cfgLow nowQ tradesAllOut 1).avg = none ∧
      (computeWindowStats cfgLow nowQ tradesAllOut 1).outliers.length =
        (computeWindowStats cfgLow nowQ tradesAllOut 1).count := by
  have hnorm : normalizeWindow nowQ 1 tradesAllOut =
      [⟨nowQ, 1, 1⟩, ⟨nowQ, 2, 1⟩, ⟨nowQ, 10, 1⟩, ⟨nowQ, 11, 1⟩,
        ⟨nowQ, 20, 1⟩, ⟨nowQ, 21, 1⟩] := by
    norm_num [normalizeWindow, tradesAllOut, normKeep, cutoffOf,
      parseTimestampToMs, jsAmount, mkTrade, nowQ, List.filterMap_cons]
  have hn : normalizeWindow nowQ 1 tradesAllOut ≠ [] := by
    rw [hnorm]; simp
  have hmed : median [1, 2, 10, 11, 20, 21] = some (21/2) := by
    norm_num [median, sortAsc, insertSorted, List.getD]
  have hmad : mad [1, 2, 10, 11, 20, 21] (21/2) = some 9 := by
    norm_num [mad, median, sortAsc, insertSorted, List.getD, abs]
  have hA : candidateA [⟨nowQ, 1, 1⟩, ⟨nowQ, 2, 1⟩, ⟨nowQ, 10, 1⟩,
      ⟨nowQ, 11, 1⟩, ⟨nowQ, 20, 1⟩, ⟨nowQ, 21, 1⟩] =
      [1, 2, 10, 11, 20, 21] := by
    norm_num [candidateA]
  have hB : candidateB [⟨nowQ, 1, 1⟩, ⟨nowQ, 2, 1⟩, ⟨nowQ, 10, 1⟩,
      ⟨nowQ, 11, 1⟩, ⟨nowQ, 20, 1⟩, ⟨nowQ, 21, 1⟩] =
      [1, 2, 10, 11, 20, 21] := by
    norm_num [candidateB]
  have hrel : relOf [1, 2, 10, 11, 20, 21] = some (6/7) := by
    rw [relOf]
    norm_num [hmed, hmad, abs]
  have hchoose : chooseBOf [⟨nowQ, 1, 1⟩, ⟨nowQ, 2, 1⟩, ⟨nowQ, 10, 1⟩,
      ⟨nowQ, 11, 1⟩, ⟨nowQ, 20, 1⟩, ⟨nowQ, 21, 1⟩] = false := by
    rw [chooseBOf, hA, hB, hrel, hmed]
    norm_num [relLt]
  have hunit : unitPricesOf [⟨nowQ, 1, 1⟩, ⟨nowQ, 2, 1⟩, ⟨nowQ, 10, 1⟩,
      ⟨nowQ, 11, 1⟩, ⟨nowQ, 20, 1⟩, ⟨nowQ, 21, 1⟩] =
      [1, 2, 10, 11, 20, 21] := by
    rw [unitPricesOf, hchoose]
    simpa using hA
  have hdet : detectOutliers cfgLow [1, 2, 10, 11, 20, 21] =
      [true, true, true, true, true, true] := by
    norm_num [detectOutliers, cfgLow, hmed, hmad, abs]
  have hclean : cleanDataOf cfgLow (normalizeWindow nowQ 1 tradesAllOut) =
      [] := by
    rw [hnorm, cleanDataOf, pairedOf, hunit, hdet]
    norm_num [List.zip, List.zipWith, List.filterMap_cons]
  have hcc : (computeWindowStats cfgLow nowQ tradesAllOut 1).cleanCount =
      0 := by
    rw [computeWindowStats_allOut hn hclean]
  exact ⟨hn, hcc, (c5_all_outliers cfgLow nowQ tradesAllOut 1 hn hcc).1,
    (c5_all_outliers cfgLow nowQ tradesAllOut 1 hn hcc).2.2.2.2⟩

/-- For a non-empty series the source's coercion-laden relative MAD
agrees with the spec's `mad / |median|` (infinite at zero median). -/
theorem relOf_eq_specRelMAD {vals : List ℚ} (h : vals ≠ []) :
    relOf vals = specRelMAD vals := by
  obtain ⟨m, hm⟩ := median_of_ne_empty h
  obtain ⟨dv, hd⟩ := mad_of_ne_empty m h
  unfold relOf specRelMAD
  rw [hm]
  simp only [Option.getD_some]
  rw [hd]
  by_cases hz : m = 0 <;> simp [hz]

/-- C2: for every non-empty normalized batch, the resolver chooses
Candidate B (`unitPrice = price/amount`) iff
`relativeMAD(B) < relativeMAD(A)` or
(`median(A) > 1_000_000` and `median(B) < median(A)`), with relative MAD
`mad/|median|` treated as infinite at zero median; otherwise Candidate A
(`unitPrice = price`). -/
theorem c2_resolver_decision (l : List NTrade) (h : l ≠ []) :
    chooseBOf l = specChooseB l ∧
      unitPricesOf l =
        (if specChooseB l then candidateB l else candidateA l) := by
  have hA : candidateA l ≠ [] := by unfold candidateA; simpa using h
  have hB : candidateB l ≠ [] := by unfold candidateB; simpa using h
  obtain ⟨ma, hma⟩ := median_of_ne_empty hA
  obtain ⟨mb, hmb⟩ := median_of_ne_empty hB
  have hchoose : chooseBOf l = specChooseB l := by
    unfold chooseBOf specChooseB
    unfold candidateA at hma hA ⊢
    unfold candidateB at hmb hB ⊢
    rw [relOf_eq_specRelMAD hA, relOf_eq_specRelMAD hB, hma, hmb]
    simp only [Option.getD_some]
  refine ⟨hchoose, ?_⟩
  rw [unitPricesOf, hchoose]

/-- Witness for C2 at a concrete one-trade batch. -/
theorem c2_witness :
    ([⟨nowQ, 10, 10⟩] : List NTrade) ≠ [] ∧
      chooseBOf [⟨nowQ, 10, 10⟩] = specChooseB [⟨nowQ, 10, 10⟩] :=
  ⟨by simp, (c2_resolver_decision [⟨nowQ, 10, 10⟩] (by simp)).1⟩

/-- The loop never requests more pages than it has fuel for. -/
theorem fetchLoop_length_le (src : ℕ → List RawTrade) (cutoff7 : ℚ) :
    ∀ fuel page : ℕ, (fetchLoop src cutoff7 page fuel).length ≤ fuel := by
  intro fuel
  induction fuel with
  | zero => intro page; simp [fetchLoop]
  | succ n ih =>
    intro page
    rw [fetchLoop]
    split_ifs with h1 h2
    · simp
    · simp
    · simpa using ih (page + 1)

/-- Every page the loop requests strictly after page `i ≥ page` was
preceded only by non-empty, non-stale pages. -/
theorem fetchLoop_no_fetch_after_stop (src : ℕ → List RawTrade)
    (cutoff7 : ℚ) :
    ∀ fuel page j, j ∈ fetchLoop src cutoff7 page fuel →
      ∀ i, page ≤ i → i < j →
        src i ≠ [] ∧ pageStale cutoff7 (src i) = false := by
  intro fuel
  induction fuel with
  | zero => intro page j hj; simp [fetchLoop] at hj
  | succ n ih =>
    intro page j hj i hpi hij
    rw [fetchLoop] at hj
    split_ifs at hj with h1 h2
    · simp at hj; omega
    · simp at hj; omega
    · rcases List.mem_cons.mp hj with rfl | hj2
      · omega
      · rcases Nat.eq_or_lt_of_le hpi with rfl | hlt
        · exact ⟨h1, by simpa using h2⟩
        · exact ih (page + 1) j hj2 i hlt hij

/-- C8: the history acquirer requests at most the configured page cap of
pages, and requests no page after one that returned zero records or one
whose oldest record has a parseable timestamp older than the 7-day
cutoff. -/
theorem c8_page_cap_and_early_stop (src : ℕ → List RawTrade)
    (cutoff7 : ℚ) (maxPages : ℕ) :
    (fetchedPages src cutoff7 maxPages).length ≤ maxPages ∧
      ∀ j ∈ fetchedPages src cutoff7 maxPages, ∀ i < j,
        src i ≠ [] ∧ pageStale cutoff7 (src i) = false := by
  refine ⟨fetchLoop_length_le src cutoff7 maxPages 0, ?_⟩
  intro j hj i hij
  exact fetchLoop_no_fetch_after_stop src cutoff7 maxPages 0 j hj i
    (Nat.zero_le i) hij

/-- Witness for C8: a source with two non-empty fresh pages is requested
on pages 0, 1, 2 and stops (cap 10 not reached); every page before the
last requested one was non-empty and fresh. -/
theorem c8_witness :
    (fetchedPages srcTwoPages (nowQ - 604800000) 10).length ≤ 10 ∧
      srcTwoPages 1 ≠ [] ∧
      pageStale (nowQ - 604800000) (srcTwoPages 1) = false := by
  have hstale : pageStale (nowQ - 604800000) [mkTrade nowQ 10 1] = false := by
    norm_num [pageStale, mkTrade, parseTimestampToMs, nowQ, List.getLast?]
  have hfetch : fetchedPages srcTwoPages (nowQ - 604800000) 10 =
      [0, 1, 2] := by
    simp [fetchedPages, fetchLoop, srcTwoPages, hstale]
  have h := c8_page_cap_and_early_stop srcTwoPages (nowQ - 604800000) 10
  refine ⟨h.1, h.2 2 (by rw [hfetch]; simp) 1 (by omega)⟩

theorem sum_map_mul {α : Type} (k : ℚ) (f : α → ℚ) (l : List α) :
    (l.map fun t => k * f t).sum = k * (l.map f).sum := by
  induction l with
  | nil => simp
  | cons x xs ih => simp [ih, mul_add]

/-- The weighted average of clean entries with positive amounts lies
between the least and the greatest clean unit price. -/
theorem weighted_avg_between {c : List CleanEntry} (hne : c ≠ [])
    (hpos : ∀ e ∈ c, 0 < e.amount) :
    0 < totalUnitsOf c ∧
      jsMin (c.map fun u => u.unitPrice) ≤
        weightedSumOf c / totalUnitsOf c ∧
      weightedSumOf c / totalUnitsOf c ≤
        jsMax (c.map fun u => u.unitPrice) := by
  have htu : 0 < totalUnitsOf c := by
    rw [totalUnitsOf_eq_sum]
    refine List.sum_pos _ ?_ (by simpa using hne)
    intro a ha
    obtain ⟨e, he, rfl⟩ := List.mem_map.mp ha
    exact hpos e he
  have hup : ∀ e ∈ c,
      jsMin (c.map fun u => u.unitPrice) ≤ e.unitPrice ∧
        e.unitPrice ≤ jsMax (c.map fun u => u.unitPrice) := by
    intro e he
    have hmem : e.unitPrice ∈ c.map fun u => u.unitPrice :=
      List.mem_map.mpr ⟨e, he, rfl⟩
    exact ⟨jsMin_le_of_mem hmem, le_jsMax_of_mem hmem⟩
  have hws_hi : weightedSumOf c ≤
      jsMax (c.map fun u => u.unitPrice) * totalUnitsOf c := by
    rw [weightedSumOf_eq_sum, totalUnitsOf_eq_sum, ← sum_map_mul]
    refine List.sum_le_sum ?_
    intro e he
    exact mul_le_mul_of_nonneg_right (hup e he).2 (le_of_lt (hpos e he))
  have hws_lo : jsMin (c.map fun u => u.unitPrice) * totalUnitsOf c ≤
      weightedSumOf c := by
    rw [weightedSumOf_eq_sum, totalUnitsOf_eq_sum, ← sum_map_mul]
    refine List.sum_le_sum ?_
    intro e he
    exact mul_le_mul_of_nonneg_right (hup e he).1 (le_of_lt (hpos e he))
  refine ⟨htu, ?_, ?_⟩
  · rw [le_div_iff₀ htu]
    exact hws_lo
  · rw [div_le_iff₀ htu]
    exact hws_hi

/-- Full evaluation of the pipeline on `tradesDiag` (default
configuration, 1-day window): the extreme trade is flagged, the clean
unit prices are `[10, 10, 13, 14]`. -/
theorem tradesDiagEval :
    computeWindowStats defaultConfig nowQ tradesDiag 1 =
      ⟨some 12, 5, some 10, some 14, 4, some false, some 13, some 13,
        some (some (3/13)), some (some (3/13)),
        [⟨1, nowQ, 100, 1, 100, false⟩], 4, some 1⟩ ∧
    cleanDataOf defaultConfig (normalizeWindow nowQ 1 tradesDiag) =
      [⟨10, 1⟩, ⟨10, 1⟩, ⟨13, 1⟩, ⟨14, 1⟩] := by
  have hnorm : normalizeWindow nowQ 1 tradesDiag =
      [⟨nowQ, 10, 1⟩, ⟨nowQ, 10, 1⟩, ⟨nowQ, 13, 1⟩, ⟨nowQ, 14, 1⟩,
        ⟨nowQ, 100, 1⟩] := by
    norm_num [normalizeWindow, tradesDiag, normKeep, cutoffOf,
      parseTimestampToMs, jsAmount, mkTrade, nowQ, List.filterMap_cons]
  have hA : candidateA [⟨nowQ, 10, 1⟩, ⟨nowQ, 10, 1⟩, ⟨nowQ, 13, 1⟩,
      ⟨nowQ, 14, 1⟩, ⟨nowQ, 100, 1⟩] = [10, 10, 13, 14, 100] := by
    norm_num [candidateA]
  have hB : candidateB [⟨nowQ, 10, 1⟩, ⟨nowQ, 10, 1⟩, ⟨nowQ, 13, 1⟩,
      ⟨nowQ, 14, 1⟩, ⟨nowQ, 100, 1⟩] = [10, 10, 13, 14, 100] := by
    norm_num [candidateB]
  have hmed : median [10, 10, 13, 14, 100] = some 13 := by
    norm_num [median, sortAsc, insertSorted, List.getD]
  have hmad : mad [10, 10, 13, 14, 100] 13 = some 3 := by
    norm_num [mad, median, sortAsc, insertSorted, List.getD, abs]
  have hrel : relOf [10, 10, 13, 14, 100] = some (3/13) := by
    rw [relOf]; norm_num [hmed, hmad, abs]
  have hchoose : chooseBOf [⟨nowQ, 10, 1⟩, ⟨nowQ, 10, 1⟩, ⟨nowQ, 13, 1⟩,
      ⟨nowQ, 14, 1⟩, ⟨nowQ, 100, 1⟩] = false := by
    rw [chooseBOf, hA, hB, hrel, hmed]
    norm_num [relLt]
  have hunit : unitPricesOf [⟨nowQ, 10, 1⟩, ⟨nowQ, 10, 1⟩, ⟨nowQ, 13, 1⟩,
      ⟨nowQ, 14, 1⟩, ⟨nowQ, 100, 1⟩] = [10, 10, 13, 14, 100] := by
    rw [unitPricesOf, hchoose]
    simpa using hA
  have hdet : detectOutliers defaultConfig [10, 10, 13, 14, 100] =
      [false, false, false, false, true] := by
    norm_num [detectOutliers, defaultConfig, hmed, hmad, abs]
  have hclean : cleanDataOf defaultConfig [⟨nowQ, 10, 1⟩, ⟨nowQ, 10, 1⟩,
      ⟨nowQ, 13, 1⟩, ⟨nowQ, 14, 1⟩, ⟨nowQ, 100, 1⟩] =
      [⟨10, 1⟩, ⟨10, 1⟩, ⟨13, 1⟩, ⟨14, 1⟩] := by
    rw [cleanDataOf, pairedOf, hunit, hdet]
    norm_num [List.zip, List.zipWith, List.filterMap_cons]
  have houtl : outlierRecsOf defaultConfig 1 [⟨nowQ, 10, 1⟩, ⟨nowQ, 10, 1⟩,
      ⟨nowQ, 13, 1⟩, ⟨nowQ, 14, 1⟩, ⟨nowQ, 100, 1⟩] =
      [⟨1, nowQ, 100, 1, 100, false⟩] := by
    have h100 : jsRound (100:ℚ) = 100 := by norm_num [jsRound]
    rw [outlierRecsOf, pairedOf, hunit, hdet]
    simp only [hchoose, h100]
    norm_num [List.zip, List.zipWith, List.filterMap_cons, h100]
  have hn : normalizeWindow nowQ 1 tradesDiag ≠ [] := by rw [hnorm]; simp
  have hc : cleanDataOf defaultConfig (normalizeWindow nowQ 1 tradesDiag) ≠
      [] := by
    rw [hnorm, hclean]; simp
  refine ⟨?_, by rw [hnorm, hclean]⟩
  rw [computeWindowStats_main hn hc, hnorm, hclean, houtl, hA, hB, hrel, hmed,
    hchoose]
  norm_num [avgOf, totalUnitsOf, weightedSumOf, jsRound, jsMin, jsMax,
    min_def, max_def]

/-- C4 counterexample: the stats returned for a window with clean trades
carry no unweighted mean of the clean unit prices and no median over the
clean unit prices: at this input those two statistics are `47/4` and
`23/2`, but no numeric value carried by the result equals either. -/
theorem c4_counterexample :
    ((cleanDataOf defaultConfig (normalizeWindow nowQ 1 tradesDiag)).map
        fun e => e.unitPrice) = [10, 10, 13, 14] ∧
      meanOf [10, 10, 13, 14] = 47/4 ∧
      median [10, 10, 13, 14] = some (23/2) ∧
      ∀ z ∈ numericFieldVals
          (computeWindowStats defaultConfig nowQ tradesDiag 1),
        z ≠ 47/4 ∧ z ≠ 23/2 := by
  refine ⟨by rw [tradesDiagEval.2]; norm_num, by norm_num [meanOf], ?_, ?_⟩
  · norm_num [median, sortAsc, insertSorted, List.getD]
  · rw [tradesDiagEval.1]
    have hfields : numericFieldVals
        ⟨some 12, 5, some 10, some 14, 4, some false, some 13, some 13,
          some (some (3/13)), some (some (3/13)),
          [⟨1, nowQ, 100, 1, 100, false⟩], 4, some 1⟩ =
        [12, 5, 10, 14, 4, 13, 13, 3/13, 3/13, 4, 1, 100, 100, 1] := by
      norm_num [numericFieldVals, optIntVal, optNatVal, Option.toList]
    rw [hfields]
    intro z hz
    fin_cases hz <;> norm_num

/-- C4 amended: in every window with at least one clean trade, the stats
carry the amount-weighted average of the clean trades and the rounded
medians of the two candidate series over all in-window normalized trades
(`medianCandidateA`/`medianCandidateB`); no unweighted mean and no
median over only the clean unit prices is produced. -/
theorem c4_median_fields_from_candidates (cfg : Config) (now : ℚ)
    (trades : List RawTrade) (d : ℚ)
    (h : 1 ≤ (computeWindowStats cfg now trades d).cleanCount) :
    (computeWindowStats cfg now trades d).avg =
      avgOf (cleanDataOf cfg (normalizeWindow now d trades)) ∧
    (computeWindowStats cfg now trades d).medianCandidateA =
      some (jsRound
        ((median (candidateA (normalizeWindow now d trades))).getD 0)) ∧
    (computeWindowStats cfg now trades d).medianCandidateB =
      some (jsRound
        ((median (candidateB (normalizeWindow now d trades))).getD 0)) := by
  by_cases hn : normalizeWindow now d trades = []
  · rw [computeWindowStats_empty hn] at h
    exact absurd h (by simp)
  by_cases hc : cleanDataOf cfg (normalizeWindow now d trades) = []
  · rw [computeWindowStats_allOut hn hc] at h
    exact absurd h (by simp)
  rw [computeWindowStats_main hn hc]
  exact ⟨rfl, rfl, rfl⟩

/-- Witness for the amended C4 at `tradesDiag`. -/
theorem c4_witness :
    1 ≤ (computeWindowStats defaultConfig nowQ tradesDiag 1).cleanCount ∧
      (computeWindowStats defaultConfig nowQ tradesDiag 1).medianCandidateA =
        some (jsRound
          ((median (candidateA (normalizeWindow nowQ 1 tradesDiag))).getD
            0)) :=
  ⟨by rw [tradesDiagEval.1]; norm_num, (c4_median_fields_from_candidates
    defaultConfig nowQ tradesDiag 1 (by rw [tradesDiagEval.1]; norm_num)).2.1⟩

/-- C10: in every window with at least one clean trade, the rounded
weighted average lies between the rounded minimum and the rounded
maximum of the clean unit prices. -/
theorem c10_avg_between_min_max (cfg : Config) (now : ℚ)
    (trades : List RawTrade) (d : ℚ)
    (h : 1 ≤ (computeWindowStats cfg now trades d).cleanCount) :
    ∃ a mn mx, (computeWindowStats cfg now trades d).avg = some a ∧
      (computeWindowStats cfg now trades d).min = some mn ∧
      (computeWindowStats cfg now trades d).max = some mx ∧
      mn ≤ a ∧ a ≤ mx := by
  by_cases hn : normalizeWindow now d trades = []
  · rw [computeWindowStats_empty hn] at h
    exact absurd h (by simp)
  by_cases hc : cleanDataOf cfg (normalizeWindow now d trades) = []
  · rw [computeWindowStats_allOut hn hc] at h
    exact absurd h (by simp)
  rw [computeWindowStats_main hn hc]
  have hpos : ∀ e ∈ cleanDataOf cfg (normalizeWindow now d trades),
      0 < e.amount := fun e he => mem_cleanDataOf_amount_pos he
  obtain ⟨htu, hlo, hhi⟩ := weighted_avg_between hc hpos
  refine ⟨jsRound (weightedSumOf (cleanDataOf cfg (normalizeWindow now d trades)) /
      totalUnitsOf (cleanDataOf cfg (normalizeWindow now d trades))),
    _, _, ?_, rfl, rfl, jsRound_mono hlo, jsRound_mono hhi⟩
  unfold avgOf
  rw [if_pos htu]

/-- C1 counterexample: over `tradesResolver` the 1-day window resolves to
Candidate A (`detection = some false`, the shared trade (price 10,
amount 10) contributes unit price 10, so `min = 10`) while the 7-day
window over the same raw set resolves to Candidate B (`detection =
some true`, the same trade contributes unit price 1, so `min = 1`): the
interpretation is not decided once per acquisition batch, and the two
windows disagree on the trades they share. -/
theorem c1_counterexample :
    (computeWindowStats defaultConfig nowQ tradesResolver 1).detection =
      some false ∧
    (computeWindowStats defaultConfig nowQ tradesResolver 7).detection =
      some true ∧
    (computeWindowStats defaultConfig nowQ tradesResolver 1).min =
      some 10 ∧
    (computeWindowStats defaultConfig nowQ tradesResolver 7).min =
      some 1 := by
  have hnorm1 : normalizeWindow nowQ 1 tradesResolver =
      [⟨nowQ, 10, 10⟩, ⟨nowQ, 20, 10⟩, ⟨nowQ, 30, 5⟩] := by
    norm_num [normalizeWindow, tradesResolver, normKeep, cutoffOf,
      parseTimestampToMs, jsAmount, mkTrade, nowQ, List.filterMap_cons]
  have hnorm7 : normalizeWindow nowQ 7 tradesResolver =
      [⟨nowQ, 10, 10⟩, ⟨nowQ, 20, 10⟩, ⟨nowQ, 30, 5⟩,
        ⟨nowQ - 172800000, 100, 50⟩, ⟨nowQ - 172800000, 200, 100⟩,
        ⟨nowQ - 172800000, 400, 200⟩, ⟨nowQ - 172800000, 800, 400⟩] := by
    norm_num [normalizeWindow, tradesResolver, normKeep, cutoffOf,
      parseTimestampToMs, jsAmount, mkTrade, nowQ, List.filterMap_cons]
  -- 1-day window: both candidate series are equally dispersed, keep A.
  have hA1 : candidateA [⟨nowQ, 10, 10⟩, ⟨nowQ, 20, 10⟩, ⟨nowQ, 30, 5⟩] =
      [10, 20, 30] := by norm_num [candidateA]
  have hB1 : candidateB [⟨nowQ, 10, 10⟩, ⟨nowQ, 20, 10⟩, ⟨nowQ, 30, 5⟩] =
      [1, 2, 6] := by norm_num [candidateB]
  have hmedA1 : median [10, 20, 30] = some 20 := by
    norm_num [median, sortAsc, insertSorted, List.getD]
  have hmadA1 : mad [10, 20, 30] 20 = some 10 := by
    norm_num [mad, median, sortAsc, insertSorted, List.getD, abs]
  have hrelA1 : relOf [10, 20, 30] = some (1/2) := by
    rw [relOf]; norm_num [hmedA1, hmadA1, abs]
  have hmedB1 : median [1, 2, 6] = some 2 := by
    norm_num [median, sortAsc, insertSorted, List.getD]
  have hmadB1 : mad [1, 2, 6] 2 = some 1 := by
    norm_num [mad, median, sortAsc, insertSorted, List.getD, abs]
  have hrelB1 : relOf [1, 2, 6] = some (1/2) := by
    rw [relOf]; norm_num [hmedB1, hmadB1, abs]
  have hchoose1 : chooseBOf [⟨nowQ, 10, 10⟩, ⟨nowQ, 20, 10⟩,
      ⟨nowQ, 30, 5⟩] = false := by
    rw [chooseBOf, hA1, hB1, hrelA1, hrelB1, hmedA1, hmedB1]
    norm_num [relLt]
  have hunit1 : unitPricesOf [⟨nowQ, 10, 10⟩, ⟨nowQ, 20, 10⟩,
      ⟨nowQ, 30, 5⟩] = [10, 20, 30] := by
    rw [unitPricesOf, hchoose1]
    simpa using hA1
  have hdet1 : detectOutliers defaultConfig [10, 20, 30] =
      [false, false, false] := by
    norm_num [detectOutliers, defaultConfig]
  have hclean1 : cleanDataOf defaultConfig [⟨nowQ, 10, 10⟩,
      ⟨nowQ, 20, 10⟩, ⟨nowQ, 30, 5⟩] =
      [⟨10, 10⟩, ⟨20, 10⟩, ⟨30, 5⟩] := by
    rw [cleanDataOf, pairedOf, hunit1, hdet1]
    norm_num [List.zip, List.zipWith, List.filterMap_cons]
  -- 7-day window: candidate B clusters tightly, switch to B.
  have hA7 : candidateA [⟨nowQ, 10, 10⟩, ⟨nowQ, 20, 10⟩, ⟨nowQ, 30, 5⟩,
      ⟨nowQ - 172800000, 100, 50⟩, ⟨nowQ - 172800000, 200, 100⟩,
      ⟨nowQ - 172800000, 400, 200⟩, ⟨nowQ - 172800000, 800, 400⟩] =
      [10, 20, 30, 100, 200, 400, 800] := by norm_num [candidateA]
  have hB7 : candidateB [⟨nowQ, 10, 10⟩, ⟨nowQ, 20, 10⟩, ⟨nowQ, 30, 5⟩,
      ⟨nowQ - 172800000, 100, 50⟩, ⟨nowQ - 172800000, 200, 100⟩,
      ⟨nowQ - 172800000, 400, 200⟩, ⟨nowQ - 172800000, 800, 400⟩] =
      [1, 2, 6, 2, 2, 2, 2] := by norm_num [candidateB]
  have hmedA7 : median [10, 20, 30, 100, 200, 400, 800] = some 100 := by
    norm_num [median, sortAsc, insertSorted, List.getD]
  have hmadA7 : mad [10, 20, 30, 100, 200, 400, 800] 100 = some 90 := by
    norm_num [mad, median, sortAsc, insertSorted, List.getD, abs]
  have hrelA7 : relOf [10, 20, 30, 100, 200, 400, 800] = some (9/10) := by
    rw [relOf]; norm_num [hmedA7, hmadA7, abs]
  have hmedB7 : median [1, 2, 6, 2, 2, 2, 2] = some 2 := by
    norm_num [median, sortAsc, insertSorted, List.getD]
  have hmadB7 : mad [1, 2, 6, 2, 2, 2, 2] 2 = some 0 := by
    norm_num [mad, median, sortAsc, insertSorted, List.getD, abs]
  have hrelB7 : relOf [1, 2, 6, 2, 2, 2, 2] = some 0 := by
    rw [relOf]; norm_num [hmedB7, hmadB7, abs]
  have hchoose7 : chooseBOf [⟨nowQ, 10, 10⟩, ⟨nowQ, 20, 10⟩,
      ⟨nowQ, 30, 5⟩, ⟨nowQ - 172800000, 100, 50⟩,
      ⟨nowQ - 172800000, 200, 100⟩, ⟨nowQ - 172800000, 400, 200⟩,
      ⟨nowQ - 172800000, 800, 400⟩] = true := by
    rw [chooseBOf, hA7, hB7, hrelA7, hrelB7]
    norm_num [relLt]
  have hunit7 : unitPricesOf [⟨nowQ, 10, 10⟩, ⟨nowQ, 20, 10⟩,
      ⟨nowQ, 30, 5⟩, ⟨nowQ - 172800000, 100, 50⟩,
      ⟨nowQ - 172800000, 200, 100⟩, ⟨nowQ - 172800000, 400, 200⟩,
      ⟨nowQ - 172800000, 800, 400⟩] = [1, 2, 6, 2, 2, 2, 2] := by
    rw [unitPricesOf, hchoose7]
    simpa using hB7
  have hdet7 : detectOutliers defaultConfig [1, 2, 6, 2, 2, 2, 2] =
      [false, false, false, false, false, false, false] := by
    norm_num [detectOutliers, defaultConfig, hmedB7, hmadB7]
  have hclean7 : cleanDataOf defaultConfig [⟨nowQ, 10, 10⟩,
      ⟨nowQ, 20, 10⟩, ⟨nowQ, 30, 5⟩, ⟨nowQ - 172800000, 100, 50⟩,
      ⟨nowQ - 172800000, 200, 100⟩, ⟨nowQ - 172800000, 400, 200⟩,
      ⟨nowQ - 172800000, 800, 400⟩] =
      [⟨1, 10⟩, ⟨2, 10⟩, ⟨6, 5⟩, ⟨2, 50⟩, ⟨2, 100⟩, ⟨2, 200⟩,
        ⟨2, 400⟩] := by
    rw [cleanDataOf, pairedOf, hunit7, hdet7]
    norm_num [List.zip, List.zipWith, List.filterMap_cons]
  have hn1 : normalizeWindow nowQ 1 tradesResolver ≠ [] := by
    rw [hnorm1]; simp
  have hc1 : cleanDataOf defaultConfig
      (normalizeWindow nowQ 1 tradesResolver) ≠ [] := by
    rw [hnorm1, hclean1]; simp
  have hn7 : normalizeWindow nowQ 7 tradesResolver ≠ [] := by
    rw [hnorm7]; simp
  have hc7 : cleanDataOf defaultConfig
      (normalizeWindow nowQ 7 tradesResolver) ≠ [] := by
    rw [hnorm7, hclean7]; simp
  rw [computeWindowStats_main hn1 hc1, computeWindowStats_main hn7 hc7,
    hnorm1, hnorm7, hclean1, hclean7, hchoose1, hchoose7]
  norm_num [jsMin, jsRound, min_def]

/-- C3 counterexample: a raw record whose `amount` field is the number 0
is NOT dropped: `Number(p.amount || 1)` turns the falsy `0` into `1`, the
record passes the filter, and it counts toward the window's
`sampleCount`. -/
theorem c3_counterexample :
    normKeep (cutoffOf nowQ 1)
        ⟨TimeField.numT nowQ, some 10, AmountField.numA 0⟩ =
      some ⟨nowQ, 10, 1⟩ ∧
    (computeWindowStats defaultConfig nowQ
        [⟨TimeField.numT nowQ, some 10, AmountField.numA 0⟩] 1).count =
      1 := by
  have hnorm : normalizeWindow nowQ 1
      [⟨TimeField.numT nowQ, some 10, AmountField.numA 0⟩] =
      [⟨nowQ, 10, 1⟩] := by
    norm_num [normalizeWindow, normKeep, cutoffOf, parseTimestampToMs,
      jsAmount, nowQ, List.filterMap_cons]
  refine ⟨?_, ?_⟩
  · norm_num [normKeep, cutoffOf, parseTimestampToMs, jsAmount, nowQ]
  · rw [count_eq_length, hnorm]
    rfl

/-- C3 amended: a raw record whose price is a non-positive number, or
whose `amount` field is a negative number, is dropped by normalization
and contributes nothing to any window's `sampleCount`; a record with
`amount` equal to the number 0 is instead kept with the amount defaulted
to 1. -/
theorem c3_drop_nonpositive (cfg : Config) (now d : ℚ)
    (pre post : List RawTrade) (p : RawTrade)
    (h : (∃ q, p.price = some q ∧ q ≤ 0) ∨
      (∃ q, p.amount = AmountField.numA q ∧ q < 0)) :
    normalizeWindow now d (pre ++ p :: post) =
      normalizeWindow now d (pre ++ post) ∧
    (computeWindowStats cfg now (pre ++ p :: post) d).count =
      (computeWindowStats cfg now (pre ++ post) d).count := by
  have hdrop : normKeep (cutoffOf now d) p = none := by
    cases hk : normKeep (cutoffOf now d) p with
    | none => rfl
    | some t =>
      exfalso
      rw [normKeep_eq_some_iff] at hk
      rcases h with ⟨q, hq, hq0⟩ | ⟨q, hq, hq0⟩
      · have := hk.2.1
        rw [hq] at this
        have hqt : q = t.price := by injection this
        have := hk.2.2.2.2.1
        rw [← hqt] at this
        linarith
      · have := hk.2.2.1
        rw [hq] at this
        have hq0' : ¬ q = 0 := by intro hh; rw [hh] at hq0; exact absurd hq0 (by norm_num)
        rw [jsAmount, if_neg hq0'] at this
        have hqt : q = t.amount := by injection this
        have := hk.2.2.2.2.2
        rw [← hqt] at this
        linarith
  have hsame : normalizeWindow now d (pre ++ p :: post) =
      normalizeWindow now d (pre ++ post) := by
    unfold normalizeWindow
    rw [List.filterMap_append, List.filterMap_append,
      List.filterMap_cons_none hdrop]
  exact ⟨hsame, by rw [count_eq_length, count_eq_length, hsame]⟩

/-- Witness for the amended C3: a negative-price record between two valid
records is dropped and the counts agree. -/
theorem c3_drop_witness :
    (∃ q, (mkTrade nowQ (-5) 1).price = some q ∧ q ≤ 0) ∧
      (computeWindowStats defaultConfig nowQ
          [mkTrade nowQ 10 1, mkTrade nowQ (-5) 1] 1).count =
        (computeWindowStats defaultConfig nowQ [mkTrade nowQ 10 1] 1).count :=
  ⟨⟨-5, rfl, by norm_num⟩,
    (c3_drop_nonpositive defaultConfig nowQ 1 [mkTrade nowQ 10 1] []
      (mkTrade nowQ (-5) 1) (Or.inl ⟨-5, rfl, by norm_num⟩)).2⟩

/-- Every outlier ledger record of one window call carries that call's
resolver decision. -/
theorem mem_outlierRecsOf_detection {cfg : Config} {d : ℚ}
    {l : List NTrade} {o : OutlierRecord}
    (ho : o ∈ outlierRecsOf cfg d l) : o.detection = chooseBOf l := by
  unfold outlierRecsOf at ho
  obtain ⟨x, _, hx⟩ := List.mem_filterMap.mp ho
  split_ifs at hx with h1 h2
  cases hx
  rfl

/-- C1 amended: the interpretation is decided once per window invocation
and applied uniformly to every trade of that window: a single Boolean
choice determines every unit price used, every outlier record's
`detection` tag, and the reported `detection` field.  (Different windows
over the same batch may decide differently, as the counterexample
shows.) -/
theorem c1_uniform_within_window (cfg : Config) (now : ℚ)
    (trades : List RawTrade) (d : ℚ) :
    ∃ b : Bool,
      unitPricesOf (normalizeWindow now d trades) =
        (normalizeWindow now d trades).map
          (fun p => if b then p.price / p.amount else p.price) ∧
      (∀ o ∈ (computeWindowStats cfg now trades d).outliers,
        o.detection = b) ∧
      (∀ v ∈ (computeWindowStats cfg now trades d).detection, v = b) := by
  refine ⟨chooseBOf (normalizeWindow now d trades), ?_, ?_, ?_⟩
  · by_cases hb : chooseBOf (normalizeWindow now d trades) <;>
      simp [unitPricesOf, hb, candidateA, candidateB]
  · intro o ho
    by_cases hn : normalizeWindow now d trades = []
    · rw [computeWindowStats_empty hn] at ho
      simp at ho
    · by_cases hc : cleanDataOf cfg (normalizeWindow now d trades) = []
      · rw [computeWindowStats_allOut hn hc] at ho
        exact mem_outlierRecsOf_detection ho
      · rw [computeWindowStats_main hn hc] at ho
        exact mem_outlierRecsOf_detection ho
  · intro v hv
    by_cases hn : normalizeWindow now d trades = []
    · rw [computeWindowStats_empty hn] at hv
      simp at hv
    · by_cases hc : cleanDataOf cfg (normalizeWindow now d trades) = []
      · rw [computeWindowStats_allOut hn hc] at hv
        simp at hv
      · rw [computeWindowStats_main hn hc] at hv
        simp at hv
        exact hv.symm

/-- Witness for the amended C1 at `tradesDiag`, whose outlier ledger is
non-empty (so the per-record uniformity is not vacuous). -/
theorem c1_amended_witness :
    (computeWindowStats defaultConfig nowQ tradesDiag 1).outliers ≠ [] ∧
      ∃ b : Bool,
        unitPricesOf (normalizeWindow nowQ 1 tradesDiag) =
          (normalizeWindow nowQ 1 tradesDiag).map
            (fun p => if b then p.price / p.amount else p.price) ∧
        (∀ o ∈ (computeWindowStats defaultConfig nowQ tradesDiag 1).outliers,
          o.detection = b) ∧
        (∀ v ∈ (computeWindowStats defaultConfig nowQ tradesDiag 1).detection,
          v = b) :=
  ⟨by rw [tradesDiagEval.1]; simp,
    c1_uniform_within_window defaultConfig nowQ tradesDiag 1⟩

/-- Witness for C10 at `tradesDiag` (clean count 4). -/
theorem c10_witness :
    1 ≤ (computeWindowStats defaultConfig nowQ tradesDiag 1).cleanCount ∧
      ∃ a mn mx,
        (computeWindowStats defaultConfig nowQ tradesDiag 1).avg = some a ∧
        (computeWindowStats defaultConfig nowQ tradesDiag 1).min = some mn ∧
        (computeWindowStats defaultConfig nowQ tradesDiag 1).max = some mx ∧
        mn ≤ a ∧ a ≤ mx :=
  ⟨by rw [tradesDiagEval.1]; norm_num,
    c10_avg_between_min_max defaultConfig nowQ tradesDiag 1
      (by rw [tradesDiagEval.1]; norm_num)⟩

end Stalcrafter
